import Mathlib

/-!
Verification development for the OADA list-lib change-feed processor.

The definitions below are a shallow embedding of the current
generation of the library: src/ListWatch.ts, src/util.ts and the Metadata class.  JSON
values are modelled by an inductive type; the change-tree builder carries
the sidecar list of raw sub-changes on object nodes (the `changeSym`
symbol property of the source) and represents the `undefined` sentinel of
the delete translation by an explicit `absent` constructor.  External
collaborators (the JSONPath engine, the json-ptr library and the
object-assign-deep merge) are modelled by executable functions that
follow their documented behaviour on the inputs this library feeds them.
-/

namespace ListLib

/-- A JSON value.  Revision counters are integers in every scenario the
library handles, so numbers are modelled by `Int`. -/
inductive Json where
  | null
  | bool (b : Bool)
  | num (n : Int)
  | str (s : String)
  | arr (elements : List Json)
  | obj (fields : List (String × Json))

/-- The two change types of the OADA change wire shape. -/
inductive ChangeKind where
  | merge
  | delete
deriving Repr, DecidableEq

/-- One sub-change of a change batch, as delivered by the transport:
`{type, path, body}`.  The free-form context fields do not influence the
processor and are omitted. -/
structure Change where
  type : ChangeKind
  path : String
  body : Json

/-- A value of the built change tree.  `absent` is the internal
sentinel of the builder for `undefined` (a `null` leaf of a delete change after
`translateDelete`); `obj` nodes carry the sidecar list of raw sub-changes
that touched them (the `changeSym` symbol property in the source). -/
inductive CJson where
  | absent
  | null
  | bool (b : Bool)
  | num (n : Int)
  | str (s : String)
  | arr (elements : List CJson)
  | obj (sidecar : List Change) (fields : List (String × CJson))

namespace CJson

/-- The sidecar change list tagged on a node; a node that is not an object
carries none (reading the symbol property of a primitive yields
`undefined`, destructured to an empty iteration in the source). -/
def sidecarOf : CJson → List Change
  | .obj cs _ => cs
  | _ => []

/-- Replace the sidecar list of an object node; on any other value the
assignment has no effect. -/
def setSidecar : CJson → List Change → CJson
  | .obj _ fs, cs => .obj cs fs
  | t, _ => t

/-- JavaScript truthiness test used by `output = target || \x7b\x7d` inside
object-assign-deep. -/
def isFalsy : CJson → Bool
  | .absent => true
  | .null => true
  | .bool false => true
  | .num 0 => true
  | .str "" => true
  | _ => false

end CJson

/-- Embed a plain JSON value as a change-tree value: `null` stays `null`
and no node carries sidecar changes. -/
def toCJson : Json → CJson
  | .null => .null
  | .bool b => .bool b
  | .num n => .num n
  | .str s => .str s
  | .arr xs => .arr (toCJsonList xs)
  | .obj fs => .obj [] (toCJsonFields fs)
where
  toCJsonList : List Json → List CJson
    | [] => []
    | x :: xs => toCJson x :: toCJsonList xs
  toCJsonFields : List (String × Json) → List (String × CJson)
    | [] => []
    | (k, v) :: fs => (k, toCJson v) :: toCJsonFields fs

/-- Embedding of `translateDelete` (util.ts): replace `null` values in
delete-change bodies with `undefined` (here `absent`), recursing through
arrays and objects and leaving other scalars unchanged. -/
def translateDelete : Json → CJson
  | .null => .absent
  | .bool b => .bool b
  | .num n => .num n
  | .str s => .str s
  | .arr xs => .arr (translateDeleteList xs)
  | .obj fs => .obj [] (translateDeleteFields fs)
where
  translateDeleteList : List Json → List CJson
    | [] => []
    | x :: xs => translateDelete x :: translateDeleteList xs
  translateDeleteFields : List (String × Json) → List (String × CJson)
    | [] => []
    | (k, v) :: fs => (k, translateDelete v) :: translateDeleteFields fs

/-- Look a key up in the field list of an object (JavaScript property access). -/
def lookupF (k : String) : List (String × CJson) → Option CJson
  | [] => none
  | (k', v) :: fs => if k' = k then some v else lookupF k fs

/-- Assign a key in a field list: an existing key keeps its position and
gets the new value, a new key is appended (JavaScript property
assignment preserves insertion order). -/
def setF (fs : List (String × CJson)) (k : String) (v : CJson) : List (String × CJson) :=
  match fs with
  | [] => [(k, v)]
  | (k', v') :: rest =>
    if k' = k then (k', v) :: rest else (k', v') :: setF rest k v

/-- Model of `quickCloneAny` from object-assign-deep: the clone copies only
string-keyed properties, so sidecar lists (symbol-keyed in the source)
are dropped at every level. -/
def strip : CJson → CJson
  | .obj _ fs => .obj [] (stripFields fs)
  | .arr xs => .arr (stripList xs)
  | v => v
where
  stripList : List CJson → List CJson
    | [] => []
    | x :: xs => strip x :: stripList xs
  stripFields : List (String × CJson) → List (String × CJson)
    | [] => []
    | (k, v) :: fs => (k, strip v) :: stripFields fs

mutual

/-- Model of the per-key merge rule of object-assign-deep (arrayBehaviour is
the default `replace`): an object value deep-merges with an existing
object (into a fresh node, so string keys survive but the sidecar does
not), overwrites a defined non-object existing value starting from an
empty object, and is cloned when the key was missing or `undefined`; an
array value replaces whole; any other value (including `undefined`) is
assigned directly. -/
def assignField (tf : List (String × CJson)) (k : String) (v : CJson) :
    List (String × CJson) :=
  match v with
  | .obj _ vf =>
    match lookupF k tf with
    | some (.obj _ ef) => setF tf k (.obj [] (assignFields (strip.stripFields ef) vf))
    | some .absent => setF tf k (strip v)
    | some _ => setF tf k (.obj [] (assignFields [] vf))
    | none => setF tf k (strip v)
  | .arr xs => setF tf k (.arr (strip.stripList xs))
  | _ => setF tf k v

/-- Fold the source fields into the target fields in order, one key at a
time (the `Object.keys` loop of object-assign-deep). -/
def assignFields (tf : List (String × CJson)) : List (String × CJson) →
    List (String × CJson)
  | [] => tf
  | (k, v) :: rest => assignFields (assignField tf k v) rest

end

/-- Embedding of the `objectAssignDeep(target, source)` call of
buildChangeObject.  A falsy target is replaced by a fresh object; a
source without own string keys (null, `undefined`, scalars - change
bodies are objects or `null` per the wire contract) contributes nothing;
an object source merges key by key.  Assignments onto a truthy primitive
target have no effect. -/
def objectAssignDeep (target source : CJson) : CJson :=
  let out := if target.isFalsy then CJson.obj [] [] else target
  match source, out with
  | .obj _ sf, .obj cs tf => .obj cs (assignFields tf sf)
  | _, _ => out

/-- Split a character list at every slash, the separator convention of
JSON pointers. -/
def splitSlash : List Char → List (List Char)
  | [] => [[]]
  | c :: cs =>
    let r := splitSlash cs
    if c = '/' then [] :: r
    else
      match r with
      | [] => [[c]]
      | seg :: rest => (c :: seg) :: rest

/-- Parse a JSON pointer string into its component list (`JsonPointer.create`
of json-ptr); the empty pointer has no components, otherwise the leading
empty segment before the first slash is dropped.  OADA list keys contain
no `~` or `/`, so escape handling is not modelled. -/
def parsePtr (p : String) : List String :=
  if p = "" then []
  else ((splitSlash p.toList).drop 1).map fun cs => String.mk cs

/-- Embedding of the json-ptr `get` operation: walk the components, returning `none`
for a missing key, an index into a non-container, or a stored
`undefined` value. -/
def getPtr : CJson → List String → Option CJson
  | t, [] => match t with
    | .absent => none
    | v => some v
  | .obj _ fs, k :: rest =>
    match lookupF k fs with
    | some v => getPtr v rest
    | none => none
  | .arr xs, k :: rest =>
    match k.toNat? with
    | some i =>
      match xs.get? i with
      | some v => getPtr v rest
      | none => none
    | none => none
  | _, _ :: _ => none

/-- Embedding of the json-ptr `set` operation with `force = true`: missing
intermediate containers are created as plain objects; writing through an
existing non-container leaves the tree unchanged (not exercised by list
changes).  Setting at the empty pointer replaces the root. -/
def setPtr : CJson → List String → CJson → CJson
  | _, [], v => v
  | .obj cs fs, k :: rest, v =>
    match lookupF k fs with
    | some child => .obj cs (setF fs k (setPtr child rest v))
    | none => .obj cs (setF fs k (setPtr (.obj [] []) rest v))
  | .arr xs, k :: rest, v =>
    match k.toNat? with
    | some i => .arr (xs.set i (setPtr (xs.getD i (.obj [] [])) rest v))
    | none => .arr xs
  | t, _ :: _, _ => t

/-- The translated body of a sub-change: delete bodies go through
`translateDelete`, merge bodies are used as is. -/
def translatedBody (c : Change) : CJson :=
  match c.type with
  | .delete => translateDelete c.body
  | .merge => toCJson c.body

/-- The sidecar list found at a looked-up node:
`old?.[changeSym] ?? []`. -/
def sidecarOfOpt : Option CJson → List Change
  | some prev => prev.sidecarOf
  | none => []

/-- One iteration of the child loop of buildChangeObject: look up the node at
`child.path`, deep-merge the translated child body into it, and tag the
merged node with the previous sidecar list extended by this child. -/
def applyChild (tree : CJson) (c : Change) : CJson :=
  let p := parsePtr c.path
  let old := getPtr tree p
  let merged := objectAssignDeep (old.getD (.obj [] [])) (translatedBody c)
  setPtr tree p (merged.setSidecar (sidecarOfOpt old ++ [c]))

/-- Embedding of `buildChangeObject` (util.ts): seed the tree with the
translated body of the root change, tagged with `[rootChange]`, then fold the
children in order through `applyChild`.  Spreading a non-object root
body contributes no fields. -/
def buildChangeObject (rootChange : Change) (children : List Change) : CJson :=
  let seeded := match translatedBody rootChange with
    | .obj _ fs => CJson.obj [rootChange] fs
    | _ => CJson.obj [rootChange] []
  children.foldl applyChild seeded

/-! ### JSON field access and the JavaScript Number conversion -/

/-- Look a key up in the field list of a plain JSON object. -/
def lookupJF (k : String) : List (String × Json) → Option Json
  | [] => none
  | (k', v) :: fs => if k' = k then some v else lookupJF k fs

/-- Property access `j?.[k]` on a JSON value: `none` models `undefined`
(missing key or access on a non-object). -/
def Json.get? : Json → String → Option Json
  | .obj fs, k => lookupJF k fs
  | _, _ => none

/-- Parse a non-empty all-digit character list as a natural number; any
other shape is `none`, the model of `NaN`. -/
def natOfDigits : Option Nat → List Char → Option Nat
  | acc, [] => acc
  | acc, c :: rest =>
    if c.isDigit then
      natOfDigits (some ((acc.getD 0) * 10 + (c.toNat - 48))) rest
    else none

/-- The JavaScript `Number(s)` conversion on the strings the processor
feeds it: revision counters are non-negative digit strings, anything
else converts to `NaN` (`none`). -/
def jsStrToInt (s : String) : Option Int :=
  match natOfDigits none s.toList with
  | some n => some (Int.ofNat n)
  | none => none

/-- The JavaScript `Number(x)` conversion on the values the processor
feeds it: `none` models `NaN` (conversion of `undefined`, of objects and
arrays, or of a non-numeric string). -/
def jsNumber : Json → Option Int
  | .num n => some n
  | .str s => jsStrToInt s
  | .bool b => some (if b then 1 else 0)
  | .null => some 0
  | _ => none

/-- Evaluation of `Number(body?._meta?._rev ?? body?._rev)`: the nullish
fallback also fires when `_meta._rev` is present but `null`. -/
def revOfBody (body : Json) : Option Int :=
  let meta := match body.get? "_meta" with
    | some m => m.get? "_rev"
    | none => none
  match meta with
  | some .null | none =>
    match body.get? "_rev" with
    | some v => jsNumber v
    | none => none
  | some v => jsNumber v

/-! ### Events and the emitter -/

/-- The closed set of item event kinds of the public surface. -/
inductive EventKind where
  | ItemAdded
  | ItemChanged
  | ItemRemoved
  | ItemAny
deriving Repr, DecidableEq

/-- An emitted item event: the list revision of the batch, the JSON
pointer of the item inside the list and, for `ItemChanged`, the item
revision and the re-rooted raw sub-change.  The lazy `item` accessor
performs transport calls only when awaited and carries no information
relevant to the claims, so it is not modelled. -/
structure Event where
  kind : EventKind
  pointer : String
  listRev : Option Int
  rev : Option Int := none
  change : Option Change := none

/-- The emit switch of ListWatch: `ItemAdded` and `ItemChanged` are each
followed by one `ItemAny` carrying the same event object; `ItemRemoved`
is emitted alone.  The source throws a `TypeError` on an `ItemAny`
argument and never calls itself with it. -/
def emitEvents (e : Event) : List Event :=
  match e.kind with
  | .ItemChanged => [e, { e with kind := .ItemAny }]
  | .ItemAdded => [e, { e with kind := .ItemAny }]
  | .ItemRemoved => [e]
  | .ItemAny => []

/-! ### The item matcher -/

/-- The two JSONPath items selectors exercised by this development: the
constructor default `$[?(!@property.match(/^_/))]` (direct children whose
key does not start with an underscore) and the flat-list selector `$.*`
(all direct children). -/
inductive Selector where
  | defaultItems
  | star
deriving Repr, DecidableEq

/-- The regex test `/^_/` of the default selector: whether the first
character of a key is an underscore. -/
def underscoreFirst (s : String) : Bool :=
  match s.toList with
  | c :: _ => c = '_'
  | [] => false

/-- Whether a selector admits a direct-child key. -/
def selectorAllows : Selector → String → Bool
  | .defaultItems, k => !(underscoreFirst k)
  | .star, _ => true

/-- Model of the JSONPath run over the built change tree with
`resultType: all`: the admitted direct children in document order, as
`(value, pointer)` pairs.  A key whose stored value is the `undefined`
sentinel is still enumerated, which is how removals surface. -/
def matchItems (sel : Selector) (t : CJson) : List (CJson × String) :=
  match t with
  | .obj _ fs => fs.filterMap fun kv =>
      if selectorAllows sel kv.1 then some (kv.2, "/" ++ kv.1) else none
  | _ => []

/-! ### The event classifier -/

/-- The JavaScript test `typeof value === 'object' && '_id' in value` on
a non-null value: only objects can carry an `_id` key (the `in` test on
an array is false for `_id`). -/
def CJson.hasIdKey : CJson → Bool
  | .obj _ fs => fs.any fun kv => kv.1 == "_id"
  | _ => false

/-- The `ItemChanged` event built for one tagged sub-change: the item rev
comes from `body._meta._rev ?? body._rev` and the change path is
re-rooted at the item by `change.path.slice(pointer.length)`. -/
def mkChangedEvent (listRev : Option Int) (p : String) (c : Change) : Event :=
  { kind := .ItemChanged, pointer := p, listRev,
    rev := revOfBody c.body,
    change := some { c with path := c.path.drop p.length } }

/-- The per-pair body of the `#handleItemChanges` loop: an `undefined`
value emits one `ItemRemoved`; destructuring the sidecar from a `null`
value throws a `TypeError`; a value without sidecar changes that is an
object carrying `_id` emits one `ItemAdded`; otherwise one `ItemChanged`
is emitted per tagged sub-change in order (none when the sidecar is
empty). -/
def classifyItem (listRev : Option Int) (v : CJson) (p : String) :
    Except String (List Event) :=
  match v with
  | .absent => .ok (emitEvents { kind := .ItemRemoved, pointer := p, listRev })
  | .null => .error "TypeError: cannot destructure null"
  | v =>
    if v.sidecarOf.isEmpty && v.hasIdKey then
      .ok (emitEvents { kind := .ItemAdded, pointer := p, listRev })
    else
      .ok (v.sidecarOf.flatMap fun c => emitEvents (mkChangedEvent listRev p c))

/-- Run the classifier over the matched pairs in order, concatenating the
emitted events; a thrown `TypeError` aborts the whole batch. -/
def classifyAll (listRev : Option Int) : List (CJson × String) →
    Except String (List Event)
  | [] => .ok []
  | (v, p) :: rest => do
    let evs ← classifyItem listRev v p
    let more ← classifyAll listRev rest
    .ok (evs ++ more)

/-- Embedding of `#handleItemChanges`: match the items selector over the
change tree and classify every pair. -/
def handleItemChanges (sel : Selector) (changeBody : CJson)
    (listRev : Option Int) : Except String (List Event) :=
  classifyAll listRev (matchItems sel changeBody)

/-- The list revision of a batch, from the root change body. -/
def listRevOf (root : Change) : Option Int := revOfBody root.body

/-- The per-batch pipeline: build the change tree from the batch and run
the matcher and classifier over it. -/
def processBatch (sel : Selector) (root : Change) (children : List Change) :
    Except String (List Event) :=
  handleItemChanges sel (buildChangeObject root children) (listRevOf root)

/-- Embedding of `#handleStartingItems`: match the items selector over
the list snapshot and emit an `ItemAdded` (with its `ItemAny` mirror) per
item, with `listRev = Number(json._rev)`. -/
def handleStartingItems (sel : Selector) (json : Json) : List Event :=
  let listRev := match json.get? "_rev" with
    | some v => jsNumber v
    | none => none
  (matchItems sel (toCJson json)).flatMap fun vp =>
    emitEvents { kind := .ItemAdded, pointer := vp.2, listRev }

/-! ### The change feed loop -/

/-- The list-self-delete test of `#handleChangeFeed`:
`body === null && type === 'delete' && path === ''`. -/
def isListDelete (root : Change) : Bool :=
  (match root.body with | .null => true | _ => false)
    && root.type == ChangeKind.delete && root.path == ""

/-- A JavaScript value held by the metadata rev cell: a JSON value
assigned raw, the `NaN` produced by a failed `Number` conversion, or
`undefined`. -/
inductive RevVal where
  | json (j : Json)
  | nan
  | undefinedV

/-- JavaScript strict equality on rev cell contents: primitives compare
by value, `NaN` equals nothing (itself included), and object or array
operands from distinct feed values are distinct references. -/
def strictEqJson : Json → Json → Bool
  | .null, .null => true
  | .bool a, .bool b => a == b
  | .num a, .num b => a == b
  | .str a, .str b => a == b
  | _, _ => false

/-- Strict equality lifted to rev cell values. -/
def RevVal.strictEq : RevVal → RevVal → Bool
  | .json a, .json b => strictEqJson a b
  | .undefinedV, .undefinedV => true
  | _, _ => false

/-- The rev cell content produced by a `Number(...)` conversion. -/
def revValOfNumber : Option Int → RevVal
  | some n => .json (.num n)
  | none => .nan

/-- The rev cell content produced by a raw property read (`undefined`
when the property is missing). -/
def revValOfJson : Option Json → RevVal
  | some j => .json j
  | none => .undefinedV

/-- The observable outcome of running the change feed loop on a finite
sequence of batches: the item events emitted, the raw `body._rev` values
assigned to the metadata rev cell after each processed batch, and the
error forwarded to the emitter when the loop task rejects. -/
structure FeedResult where
  events : List Event := []
  revSets : List RevVal := []
  errorEvent : Option String := none

/-- Embedding of `#handleChangeFeed`: process batches in order; a
list-self-delete batch breaks out of the loop, after which (as when the
feed ends) the function throws `Change feed ended`, forwarded to the
emitter as an `error` event; a classifier `TypeError` rejects the loop
task with that error; otherwise the events of the batch are emitted and
the metadata rev cell is assigned the raw `body._rev` of the root. -/
def handleChangeFeed (sel : Selector) :
    List (Change × List Change) → FeedResult
  | [] => { errorEvent := some "Change feed ended" }
  | (root, children) :: rest =>
    if isListDelete root then
      { errorEvent := some "Change feed ended" }
    else
      match processBatch sel root children with
      | .error e => { errorEvent := some e }
      | .ok evs =>
        let r := handleChangeFeed sel rest
        { events := evs ++ r.events,
          revSets := revValOfJson (root.body.get? "_rev") :: r.revSets,
          errorEvent := r.errorEvent }

/-! ### The metadata manager -/

/-- The path of the persisted progress resource:
`<list>/_meta/oada-list-lib/<name>`. -/
def metaPath (path name : String) : String :=
  path ++ "/_meta/oada-list-lib/" ++ name

/-- The data of the single PUT performed by `setErrored`: the inspected
error deep-merged under `errors -> pointer -> rev` (the rev key of a
`NaN` list revision prints as the string `NaN`). -/
def errorData (pointer : String) (listRev : Option Int) (err : String) : Json :=
  let revKey := match listRev with
    | some n => toString n
    | none => "NaN"
  .obj [("errors", .obj [(pointer, .obj [(revKey, .str err)])])]

/-- The observable state of the Metadata manager: the cached rev cell,
the dirty flag, the initialized flag, the data of the successful cursor
PUTs in order, and the data of the `setErrored` PUTs in order. -/
structure Meta where
  rev : RevVal := .undefinedV
  revDirty : Bool := false
  initialized : Bool := false
  revWrites : List RevVal := []
  errorPuts : List Json := []

/-- The rev setter: an assignment of a strictly-equal value is skipped,
any other assignment stores the value and marks the cell dirty. -/
def Meta.setRev (m : Meta) (v : RevVal) : Meta :=
  if m.rev.strictEq v then m
  else { m with rev := v, revDirty := true }

/-- One tick of the debounced writer `#doUpdate`: nothing happens unless
initialized and dirty; a successful PUT records the current rev and
clears the dirty flag; a failed PUT leaves the cell dirty for the next
tick. -/
def Meta.doUpdate (m : Meta) (succeed : Bool) : Meta :=
  if m.initialized && m.revDirty then
    if succeed then
      { m with revDirty := false, revWrites := m.revWrites ++ [m.rev] }
    else m
  else m

/-- Embedding of `setErrored(pointer, rev, error)`: one PUT whose data
deep-merges the inspected error into the metadata document. -/
def Meta.setErrored (m : Meta) (pointer : String) (listRev : Option Int)
    (err : String) : Meta :=
  { m with errorPuts := m.errorPuts ++ [errorData pointer listRev err] }

/-- An interleaving of rev assignments and debounced writer ticks, the
operations that touch the rev cell after initialization. -/
inductive MetaOp where
  | setRev (v : RevVal)
  | persist (ok : Bool)

/-- Run a sequence of rev-cell operations against a metadata state. -/
def metaRun (m : Meta) : List MetaOp → Meta
  | [] => m
  | .setRev v :: rest => metaRun (m.setRev v) rest
  | .persist ok :: rest => metaRun (m.doUpdate ok) rest

/-- The values assigned by the `setRev` operations of a trace, in order. -/
def setRevArgs : List MetaOp → List RevVal
  | [] => []
  | .setRev v :: rest => v :: setRevArgs rest
  | .persist _ :: rest => setRevArgs rest

/-! ### Listener dispatch -/

/-- A registered callback listener, abstracted by its behaviour on the
next event (`none`: the callback returns; `some e`: it throws `e`) and
by the log of events it has received. -/
structure Listener where
  outcome : Option String
  received : List Event := []

/-- The wrapped listener of `#wrapListener`: the callback runs inside a
try block, a thrown error is caught and forwarded to
`setErrored(pointer, listRev, error)`, and the finally block assigns the
metadata rev cell the listRev of the event in every case. -/
def runWrapped (m : Meta) (evt : Event) (l : Listener) : Meta :=
  let m1 := match l.outcome with
    | some err => m.setErrored evt.pointer evt.listRev err
    | none => m
  m1.setRev (revValOfNumber evt.listRev)

/-- Dispatch one event to every registered listener in order: each
listener receives the event and its wrapped effect runs, a thrown
callback error never escaping the wrapper. -/
def dispatchEvent (evt : Event) : List Listener → Meta → List Listener × Meta
  | [], m => ([], m)
  | l :: rest, m =>
    let l2 := { l with received := l.received ++ [evt] }
    let m2 := runWrapped m evt l
    let (rest2, m3) := dispatchEvent evt rest m2
    (l2 :: rest2, m3)

/-! ### Initialization and resume -/

/-- The construction-time assumption about pre-existing items. -/
inductive AssumeState where
  | New
  | Handled
deriving Repr, DecidableEq

/-- The transport responses consumed by initialization: the GET of the
metadata document (`none`: the request failed), the content-location
header of the POST of a fresh resource, and the x-oada-rev header of the
initial PUT. -/
structure InitEnv where
  metaDoc : Option Json
  postLocation : String
  putRevHeader : Option String

/-- A transport write performed during initialization. -/
inductive ConnAction where
  | post (path : String) (data : Json)
  | put (path : String) (data : Json)

/-- The outcome of `Metadata.init`: whether existing metadata was found,
the cached rev cell, and the writes performed. -/
structure InitResult where
  found : Bool
  rev : RevVal
  actions : List ConnAction

/-- The data of the `PUT { rev }` that records a fresh rev: serializing
an `undefined` rev drops the key, and a `NaN` rev serializes as `null`. -/
def revPutData : RevVal → Json
  | .json j => .obj [("rev", j)]
  | .nan => .obj [("rev", .null)]
  | .undefinedV => .obj []

/-- Embedding of `Metadata.init`: when the GET returns a JSON object the
resource assertion passes, `rev` is cached as `Number(data.rev ?? 0)` and
`true` is returned; otherwise a fresh resource is POSTed, its `_id` is
PUT under the metadata path, `rev` is cached as `Number` of the x-oada-rev
header of that PUT when the header is present (and left `undefined`
otherwise), the fresh rev is PUT, and `false` is returned. -/
def metaInit (mpath : String) (env : InitEnv) : InitResult :=
  match env.metaDoc with
  | some (.obj fs) =>
    let raw := match lookupJF "rev" fs with
      | some .null | none => Json.num 0
      | some v => v
    { found := true, rev := revValOfNumber (jsNumber raw), actions := [] }
  | _ =>
    let rev : RevVal := match env.putRevHeader with
      | some h => if h = "" then .undefinedV else revValOfNumber (jsNumber (.str h))
      | none => .undefinedV
    { found := false, rev,
      actions := [
        .post "/resources/" (.obj []),
        .put mpath (.obj [("_id", .str (env.postLocation.drop 1))]),
        .put mpath (revPutData rev)] }

/-- The observable outcome of `#initialize` up to the watch call: whether
prior metadata was found (`none` when resume is off and no metadata
manager exists), the cached metadata rev, the `rev` option passed to
`conn.watch`, and whether the starting-items snapshot is emitted before
the change feed is consumed. -/
structure InitFlowResult where
  foundMeta : Option Bool
  metaRev : RevVal
  watchRev : RevVal
  emitsStarting : Bool

/-- Embedding of `#initialize`: with resume on, `Metadata.init` runs and
the watch opens at the cached rev; with resume off there is no metadata
manager and the watch opens with an `undefined` rev.  The starting items
are treated as new exactly when no prior metadata was found and the
assumption is `New`. -/
def initFlow (path name : String) (resume : Bool) (assume : AssumeState)
    (env : InitEnv) : InitFlowResult :=
  if resume then
    let r := metaInit (metaPath path name) env
    { foundMeta := some r.found, metaRev := r.rev, watchRev := r.rev,
      emitsStarting := !r.found && assume == AssumeState.New }
  else
    { foundMeta := none, metaRev := .undefinedV, watchRev := .undefinedV,
      emitsStarting := assume == AssumeState.New }

/-! ### Derived observations used by the statements -/

/-- The events of a batch with a given kind at a given pointer. -/
def filterKindAt (k : EventKind) (p : String) (evs : List Event) : List Event :=
  evs.filter fun e => decide (e.kind = k) && decide (e.pointer = p)

/-- Whether every node that already exists along a pointer is an object,
the domain on which the forced json-ptr `set` round-trips with `get`:
missing keys are fine (force creates plain objects below them). -/
def alongObjs : CJson → List String → Bool
  | _, [] => true
  | .obj _ fs, k :: rest =>
    (match lookupF k fs with
     | some child => alongObjs child rest
     | none => true)
  | _, _ :: _ => false

/-- Whether the direct-child keys of the change tree are slash free, as
OADA list keys are (a slash inside a key would be escaped by the real
pointer library, which the model does not replicate). -/
def topKeysSlashFree : CJson → Bool
  | .obj _ fs => fs.all fun kv => !(kv.1.toList.contains '/')
  | _ => true

/-- An event list in which every `ItemAdded` or `ItemChanged` is
immediately followed by exactly one `ItemAny` carrying the same event
object, `ItemRemoved` is never mirrored, and `ItemAny` occurs nowhere
else. -/
inductive Mirrored : List Event → Prop where
  | nil : Mirrored []
  | removed (e : Event) (rest : List Event) (hk : e.kind = .ItemRemoved)
      (h : Mirrored rest) : Mirrored (e :: rest)
  | mirrored (e : Event) (rest : List Event)
      (hk : e.kind = .ItemAdded ∨ e.kind = .ItemChanged) (h : Mirrored rest) :
      Mirrored (e :: { e with kind := .ItemAny } :: rest)

/-! ### Basic lemmas about the embedded operations -/

theorem lookupF_setF_self (fs : List (String × CJson)) (k : String) (v : CJson) :
    lookupF k (setF fs k v) = some v := by
  induction fs with
  | nil => simp [setF, lookupF]
  | cons kv rest ih =>
    obtain ⟨k1, v1⟩ := kv
    by_cases h : k1 = k
    · subst h
      simp [setF, lookupF]
    · simp [setF, lookupF, h, ih]

theorem strictEqJson_eq_of_true {a b : Json} (h : strictEqJson a b = true) :
    a = b := by
  cases a <;> cases b <;> simp_all [strictEqJson]

theorem strictEq_eq_of_true {a b : RevVal} (h : a.strictEq b = true) :
    a = b := by
  cases a <;> cases b <;> simp_all [RevVal.strictEq]
  exact strictEqJson_eq_of_true (by assumption)

theorem setRev_rev (m : Meta) (v : RevVal) : (m.setRev v).rev = v := by
  unfold Meta.setRev
  split
  · next h => exact strictEq_eq_of_true h
  · rfl

theorem splitSlash_no_slash {cs : List Char} (h : '/' ∉ cs) :
    splitSlash cs = [cs] := by
  induction cs with
  | nil => rfl
  | cons c rest ih =>
    have hc : ¬ c = '/' := fun hh => h (hh ▸ List.mem_cons_self c rest)
    have hr : '/' ∉ rest := fun hm => h (List.mem_cons_of_mem _ hm)
    simp [splitSlash, hc, ih hr]

theorem parsePtr_single (k : String) (h : '/' ∉ k.toList) :
    parsePtr ("/" ++ k) = [k] := by
  have htl : ("/" ++ k).toList = '/' :: k.toList := by
    cases k
    rfl
  have hne : ("/" ++ k) ≠ "" := by
    intro he
    have := congrArg String.toList he
    rw [htl] at this
    simp at this
  have hmk : String.mk k.toList = k := by
    cases k
    rfl
  unfold parsePtr
  rw [if_neg hne, htl]
  have h2 : splitSlash k.data = [k.data] := splitSlash_no_slash h
  have hmk2 : ({ data := k.data } : String) = k := hmk
  simp [splitSlash, h2, hmk2]

theorem objectAssignDeep_ne_absent (t s : CJson) :
    objectAssignDeep t s ≠ .absent := by
  unfold objectAssignDeep
  have hout : (if t.isFalsy then CJson.obj [] [] else t) ≠ .absent := by
    split
    · simp
    · next hf =>
      intro he
      subst he
      simp [CJson.isFalsy] at hf
  cases s <;> revert hout <;>
    cases hf : (if t.isFalsy then CJson.obj [] [] else t) <;> simp

theorem setSidecar_ne_absent {x : CJson} (h : x ≠ .absent) (cs : List Change) :
    x.setSidecar cs ≠ .absent := by
  cases x <;> simp_all [CJson.setSidecar]

theorem alongObjs_emptyObj (p : List String) :
    alongObjs (.obj [] []) p = true := by
  cases p <;> simp [alongObjs, lookupF]

theorem getPtr_setPtr :
    ∀ (p : List String) (t v : CJson), alongObjs t p = true → v ≠ .absent →
      getPtr (setPtr t p v) p = some v := by
  intro p
  induction p with
  | nil =>
    intro t v _ hv
    cases v <;> simp_all [setPtr, getPtr]
  | cons k rest ih =>
    intro t v hal hv
    cases t with
    | obj cs fs =>
      cases hl : lookupF k fs with
      | some child =>
        have hal2 : alongObjs child rest = true := by
          simpa [alongObjs, hl] using hal
        simp [setPtr, getPtr, hl, lookupF_setF_self, ih child v hal2 hv]
      | none =>
        simp [setPtr, getPtr, hl, lookupF_setF_self,
          ih (.obj [] []) v (alongObjs_emptyObj rest) hv]
    | absent => simp [alongObjs] at hal
    | null => simp [alongObjs] at hal
    | bool b => simp [alongObjs] at hal
    | num n => simp [alongObjs] at hal
    | str s => simp [alongObjs] at hal
    | arr xs => simp [alongObjs] at hal

/-! ### Lemmas about the emitter and the classifier -/

theorem Mirrored.append {xs ys : List Event} (hx : Mirrored xs)
    (hy : Mirrored ys) : Mirrored (xs ++ ys) := by
  induction hx with
  | nil => simpa using hy
  | removed e rest hk h ih => exact .removed e _ hk ih
  | mirrored e rest hk h ih => exact .mirrored e _ hk ih

theorem mirrored_emit (e : Event) : Mirrored (emitEvents e) := by
  unfold emitEvents
  cases hk : e.kind
  · exact .mirrored e [] (Or.inl hk) .nil
  · exact .mirrored e [] (Or.inr hk) .nil
  · exact .removed e [] hk .nil
  · exact .nil

theorem mirrored_flatMap_emit {α : Type} (f : α → Event) :
    ∀ l : List α, Mirrored (l.flatMap fun a => emitEvents (f a))
  | [] => .nil
  | a :: rest => by
    rw [List.flatMap_cons]
    exact (mirrored_emit _).append (mirrored_flatMap_emit f rest)

theorem mirrored_classify {lr : Option Int} {v : CJson} {p : String}
    {evs : List Event} (h : classifyItem lr v p = .ok evs) : Mirrored evs := by
  unfold classifyItem at h
  cases v with
  | absent =>
    cases h
    exact mirrored_emit _
  | null => cases h
  | bool b =>
    split at h <;> cases h
    exacts [mirrored_emit _, mirrored_flatMap_emit _ _]
  | num n =>
    split at h <;> cases h
    exacts [mirrored_emit _, mirrored_flatMap_emit _ _]
  | str s =>
    split at h <;> cases h
    exacts [mirrored_emit _, mirrored_flatMap_emit _ _]
  | arr xs =>
    split at h <;> cases h
    exacts [mirrored_emit _, mirrored_flatMap_emit _ _]
  | obj cs fs =>
    have h2 :
        (if ((CJson.obj cs fs).sidecarOf.isEmpty && (CJson.obj cs fs).hasIdKey) = true then
            (Except.ok (emitEvents { kind := .ItemAdded, pointer := p, listRev := lr }) :
              Except String (List Event))
          else
            .ok ((CJson.obj cs fs).sidecarOf.flatMap fun c =>
              emitEvents (mkChangedEvent lr p c))) = .ok evs := h
    by_cases hcond :
        ((CJson.obj cs fs).sidecarOf.isEmpty && (CJson.obj cs fs).hasIdKey) = true
    · rw [if_pos hcond] at h2
      cases h2
      exact mirrored_emit _
    · rw [if_neg hcond] at h2
      cases h2
      exact mirrored_flatMap_emit _ _

theorem classifyAll_ok_cons {lr : Option Int} {v : CJson} {p : String}
    {rest : List (CJson × String)} {evs : List Event}
    (h : classifyAll lr ((v, p) :: rest) = .ok evs) :
    ∃ own more, classifyItem lr v p = .ok own ∧
      classifyAll lr rest = .ok more ∧ evs = own ++ more := by
  unfold classifyAll at h
  cases hc : classifyItem lr v p with
  | error e => rw [hc] at h; cases h
  | ok own =>
    rw [hc] at h
    cases hm : classifyAll lr rest with
    | error e => rw [hm] at h; cases h
    | ok more =>
      rw [hm] at h
      cases h
      exact ⟨own, more, rfl, rfl, rfl⟩

theorem mirrored_classifyAll {lr : Option Int} :
    ∀ {pairs : List (CJson × String)} {evs : List Event},
      classifyAll lr pairs = .ok evs → Mirrored evs := by
  intro pairs
  induction pairs with
  | nil =>
    intro evs h
    cases h
    exact .nil
  | cons hd rest ih =>
    intro evs h
    obtain ⟨v, p⟩ := hd
    obtain ⟨own, more, hc, hm, rfl⟩ := classifyAll_ok_cons h
    exact (mirrored_classify hc).append (ih hm)

theorem classifyItem_obj (lr : Option Int) (p : String) (cs : List Change)
    (fs : List (String × CJson)) :
    classifyItem lr (.obj cs fs) p =
      if (cs.isEmpty && (CJson.obj cs fs).hasIdKey) = true then
        .ok (emitEvents { kind := .ItemAdded, pointer := p, listRev := lr })
      else .ok (cs.flatMap fun c => emitEvents (mkChangedEvent lr p c)) := rfl

theorem emitEvents_pointer {e2 e : Event} (h : e2 ∈ emitEvents e) :
    e2.pointer = e.pointer := by
  unfold emitEvents at h
  cases hk : e.kind <;> rw [hk] at h <;> simp at h
  · rcases h with rfl | rfl <;> rfl
  · rcases h with rfl | rfl <;> rfl
  · subst h
    rfl

theorem classify_ok_pointer {lr : Option Int} {v : CJson} {p : String}
    {evs : List Event} (h : classifyItem lr v p = .ok evs) :
    ∀ e ∈ evs, e.pointer = p := by
  intro e he
  unfold classifyItem at h
  cases v with
  | absent =>
    cases h
    exact emitEvents_pointer he
  | null => cases h
  | bool b =>
    cases h
    simp [CJson.sidecarOf] at he
  | num n =>
    cases h
    simp [CJson.sidecarOf] at he
  | str s =>
    cases h
    simp [CJson.sidecarOf] at he
  | arr xs =>
    cases h
    simp [CJson.sidecarOf] at he
  | obj cs fs =>
    have h2 :
        (if (cs.isEmpty && (CJson.obj cs fs).hasIdKey) = true then
            (Except.ok (emitEvents { kind := .ItemAdded, pointer := p, listRev := lr }) :
              Except String (List Event))
          else .ok (cs.flatMap fun c => emitEvents (mkChangedEvent lr p c))) = .ok evs := h
    by_cases hcond : (cs.isEmpty && (CJson.obj cs fs).hasIdKey) = true
    · rw [if_pos hcond] at h2
      cases h2
      exact emitEvents_pointer he
    · rw [if_neg hcond] at h2
      cases h2
      obtain ⟨c, _, he2⟩ := List.mem_flatMap.mp he
      exact emitEvents_pointer he2

theorem classifyAll_ok_pointers {lr : Option Int} :
    ∀ {pairs : List (CJson × String)} {evs : List Event},
      classifyAll lr pairs = .ok evs →
      ∀ e ∈ evs, e.pointer ∈ pairs.map Prod.snd := by
  intro pairs
  induction pairs with
  | nil =>
    intro evs h e he
    cases h
    cases he
  | cons hd rest ih =>
    intro evs h e he
    obtain ⟨v, p⟩ := hd
    obtain ⟨own, more, hc, hm, rfl⟩ := classifyAll_ok_cons h
    rcases List.mem_append.mp he with h1 | h2
    · simp [classify_ok_pointer hc e h1]
    · simp [ih hm e h2]

theorem filterKindAt_append (k : EventKind) (p : String) (a b : List Event) :
    filterKindAt k p (a ++ b) = filterKindAt k p a ++ filterKindAt k p b := by
  simp [filterKindAt]

theorem filterKindAt_eq_nil {p : String} {evs : List Event}
    (h : ∀ e ∈ evs, e.pointer ≠ p) (k : EventKind) :
    filterKindAt k p evs = [] := by
  simp only [filterKindAt]
  rw [List.filter_eq_nil_iff]
  intro e he
  simp [h e he]

theorem classifyAll_filter_decomp {lr : Option Int} :
    ∀ {pairs : List (CJson × String)} {evs : List Event},
      classifyAll lr pairs = .ok evs →
      (pairs.map Prod.snd).Nodup →
      ∀ vp ∈ pairs, ∃ own, classifyItem lr vp.1 vp.2 = .ok own ∧
        ∀ k, filterKindAt k vp.2 evs = filterKindAt k vp.2 own := by
  intro pairs
  induction pairs with
  | nil =>
    intro evs _ _ vp hvp
    cases hvp
  | cons hd rest ih =>
    intro evs h hnd vp hvp
    obtain ⟨v, p⟩ := hd
    obtain ⟨own, more, hc, hm, rfl⟩ := classifyAll_ok_cons h
    rw [List.map_cons, List.nodup_cons] at hnd
    obtain ⟨hp, hnd2⟩ := hnd
    rcases List.mem_cons.mp hvp with rfl | hvp2
    · refine ⟨own, hc, fun k => ?_⟩
      have hmore : filterKindAt k p more = [] := by
        refine filterKindAt_eq_nil (fun e he hpe => ?_) k
        exact hp (hpe ▸ classifyAll_ok_pointers hm e he)
      rw [filterKindAt_append, hmore, List.append_nil]
    · obtain ⟨own2, hc2, hf⟩ := ih hm hnd2 vp hvp2
      refine ⟨own2, hc2, fun k => ?_⟩
      have hq : vp.2 ∈ rest.map Prod.snd :=
        List.mem_map.mpr ⟨vp, hvp2, rfl⟩
      have hown : filterKindAt k vp.2 own = [] := by
        refine filterKindAt_eq_nil (fun e he hpe => ?_) k
        have hvp2p : p = vp.2 := (classify_ok_pointer hc e he).symm.trans hpe
        exact hp (hvp2p.symm ▸ hq)
      rw [filterKindAt_append, hown, List.nil_append, hf k]

theorem filterKindAt_changed_flatMap (lr : Option Int) (p : String) :
    ∀ cs : List Change,
      filterKindAt .ItemChanged p
          (cs.flatMap fun c => emitEvents (mkChangedEvent lr p c))
        = cs.map (mkChangedEvent lr p)
  | [] => rfl
  | c :: rest => by
    rw [List.flatMap_cons, filterKindAt_append,
      filterKindAt_changed_flatMap lr p rest]
    simp [filterKindAt, emitEvents, mkChangedEvent, List.filter]

theorem matchItems_default_shape {t : CJson} {vp : CJson × String}
    (h : vp ∈ matchItems .defaultItems t) :
    ∃ k cs fs, t = .obj cs fs ∧ (k, vp.1) ∈ fs ∧ vp.2 = "/" ++ k ∧
      underscoreFirst k = false := by
  cases t with
  | obj cs fs =>
    unfold matchItems at h
    obtain ⟨kv, hkv, hsome⟩ := List.mem_filterMap.mp h
    by_cases hall : selectorAllows .defaultItems kv.1 = true
    · rw [if_pos hall] at hsome
      cases hsome
      refine ⟨kv.1, cs, fs, rfl, ?_, rfl, ?_⟩
      · simpa using hkv
      · simpa [selectorAllows] using hall
    · rw [if_neg hall] at hsome
      cases hsome
  | absent => cases h
  | null => cases h
  | bool b => cases h
  | num n => cases h
  | str s => cases h
  | arr xs => cases h

/-! ### Lemmas about the metadata manager and listener dispatch -/

theorem setRev_errorPuts (m : Meta) (v : RevVal) :
    (m.setRev v).errorPuts = m.errorPuts := by
  unfold Meta.setRev
  split <;> rfl

theorem setRev_revWrites (m : Meta) (v : RevVal) :
    (m.setRev v).revWrites = m.revWrites := by
  unfold Meta.setRev
  split <;> rfl

theorem runWrapped_rev (m : Meta) (evt : Event) (l : Listener) :
    (runWrapped m evt l).rev = revValOfNumber evt.listRev := by
  unfold runWrapped
  exact setRev_rev _ _

theorem runWrapped_errorPuts (m : Meta) (evt : Event) (l : Listener) :
    (runWrapped m evt l).errorPuts
      = m.errorPuts ++ (l.outcome.map fun err =>
          errorData evt.pointer evt.listRev err).toList := by
  unfold runWrapped
  cases l.outcome <;>
    simp [setRev_errorPuts, Meta.setErrored]

theorem runWrapped_revWrites (m : Meta) (evt : Event) (l : Listener) :
    (runWrapped m evt l).revWrites = m.revWrites := by
  unfold runWrapped
  cases l.outcome <;> simp [setRev_revWrites, Meta.setErrored]

theorem dispatchEvent_parts (evt : Event) :
    ∀ (ls : List Listener) (m : Meta),
      (dispatchEvent evt ls m).1
          = ls.map (fun l => { l with received := l.received ++ [evt] }) ∧
      (dispatchEvent evt ls m).2.errorPuts
          = m.errorPuts ++ ls.flatMap (fun l =>
              (l.outcome.map fun err =>
                errorData evt.pointer evt.listRev err).toList) ∧
      (dispatchEvent evt ls m).2.revWrites = m.revWrites ∧
      (ls ≠ [] →
        (dispatchEvent evt ls m).2.rev = revValOfNumber evt.listRev) := by
  intro ls
  induction ls with
  | nil =>
    intro m
    refine ⟨rfl, by simp [dispatchEvent], rfl, fun h => absurd rfl h⟩
  | cons l rest ih =>
    intro m
    obtain ⟨ih1, ih2, ih3, ih4⟩ := ih (runWrapped m evt l)
    refine ⟨?_, ?_, ?_, ?_⟩
    · simp [dispatchEvent, ih1]
    · simp [dispatchEvent, ih2, runWrapped_errorPuts]
    · simp [dispatchEvent, ih3, runWrapped_revWrites]
    · intro _
      cases rest with
      | nil => simp [dispatchEvent, runWrapped_rev]
      | cons l2 rest2 =>
        simpa [dispatchEvent] using ih4 (by simp)

theorem metaRun_writes_aux :
    ∀ (ops : List MetaOp) (ns : List Int) (m : Meta) (ws : List Int),
      setRevArgs ops = ns.map (fun n => RevVal.json (.num n)) →
      ns.Pairwise (· ≤ ·) →
      m.revWrites = ws.map (fun n => RevVal.json (.num n)) →
      ws.Pairwise (· ≤ ·) →
      (∀ w ∈ ws, ∀ a ∈ ns, w ≤ a) →
      (m.revDirty = true → ∃ r, m.rev = RevVal.json (.num r) ∧
          (∀ w ∈ ws, w ≤ r) ∧ (∀ a ∈ ns, r ≤ a)) →
      ∃ ms : List Int,
        (metaRun m ops).revWrites = ms.map (fun n => RevVal.json (.num n)) ∧
        ms.Pairwise (· ≤ ·) := by
  intro ops
  induction ops with
  | nil =>
    intro ns m ws _ _ h3 h4 _ _
    exact ⟨ws, h3, h4⟩
  | cons op rest ih =>
    intro ns m ws h1 h2 h3 h4 h5 h6
    cases op with
    | setRev v =>
      cases ns with
      | nil => simp [setRevArgs] at h1
      | cons n ns2 =>
        have h1b : v :: setRevArgs rest
            = RevVal.json (.num n) :: ns2.map (fun n => RevVal.json (.num n)) := by
          simpa [setRevArgs] using h1
        injection h1b with hv hrest
        subst hv
        have hle : ∀ a ∈ ns2, n ≤ a := (List.pairwise_cons.mp h2).1
        refine ih ns2 (m.setRev (.json (.num n))) ws hrest
          (List.Pairwise.of_cons h2) ?_ h4 ?_ ?_
        · rw [setRev_revWrites]
          exact h3
        · intro w hw a ha
          exact h5 w hw a (List.mem_cons_of_mem _ ha)
        · intro _
          refine ⟨n, setRev_rev m _, fun w hw => ?_, hle⟩
          exact h5 w hw n (List.mem_cons_self _ _)
    | persist ok =>
      have h1b : setRevArgs rest = ns.map (fun n => RevVal.json (.num n)) := by
        simpa [setRevArgs] using h1
      by_cases hd : (m.initialized && m.revDirty) = true
      · have hdirty : m.revDirty = true := by
          simp only [Bool.and_eq_true] at hd
          exact hd.2
        obtain ⟨r, hr, hwr, har⟩ := h6 hdirty
        cases ok with
        | true =>
          have hm2 : m.doUpdate true
              = { m with revDirty := false
                         revWrites := m.revWrites ++ [m.rev] } := by
            unfold Meta.doUpdate
            rw [if_pos hd]
            rfl
          refine ih ns (m.doUpdate true) (ws ++ [r]) h1b h2 ?_ ?_ ?_ ?_
          · rw [hm2]
            simp [h3, hr]
          · refine List.pairwise_append.mpr ⟨h4, List.pairwise_singleton _ _,
              fun w hw w2 hw2 => ?_⟩
            rw [List.mem_singleton.mp hw2]
            exact hwr w hw
          · intro w hw a ha
            rcases List.mem_append.mp hw with h | h
            · exact h5 w h a ha
            · rw [List.mem_singleton.mp h]
              exact har a ha
          · intro hcontra
            rw [hm2] at hcontra
            simp at hcontra
        | false =>
          have hm2 : m.doUpdate false = m := by
            unfold Meta.doUpdate
            rw [if_pos hd]
            rfl
          rw [show metaRun m (.persist false :: rest) = metaRun (m.doUpdate false) rest from rfl,
            hm2]
          exact ih ns m ws h1b h2 h3 h4 h5 h6
      · have hm2 : m.doUpdate ok = m := by
          unfold Meta.doUpdate
          rw [if_neg hd]
        rw [show metaRun m (.persist ok :: rest) = metaRun (m.doUpdate ok) rest from rfl,
          hm2]
        exact ih ns m ws h1b h2 h3 h4 h5 h6

/-! ### The claims -/

/-- C3: for every change batch the classifier processes successfully, and
for the starting-items snapshot, every emitted `ItemAdded` and every
emitted `ItemChanged` is immediately followed by exactly one `ItemAny`
for the same event object within the same batch, and an `ItemRemoved`
never causes an `ItemAny`. -/
theorem itemAny_mirrors_added_and_changed :
    (∀ (sel : Selector) (root : Change) (children : List Change)
        (evs : List Event),
        processBatch sel root children = .ok evs → Mirrored evs) ∧
    (∀ (sel : Selector) (json : Json),
        Mirrored (handleStartingItems sel json)) := by
  constructor
  · intro sel root children evs h
    exact mirrored_classifyAll h
  · intro sel json
    exact mirrored_flatMap_emit _ _

/-- Witness for C3 at the scenario S1 batch: one `ItemAdded` at `/K`
mirrored by one `ItemAny`. -/
theorem itemAny_mirrors_added_and_changed_witness :
    Mirrored [{ kind := .ItemAdded, pointer := "/K", listRev := some 4 },
              { kind := .ItemAny, pointer := "/K", listRev := some 4 }] :=
  itemAny_mirrors_added_and_changed.1 .star
    ⟨.merge, "", .obj [("K", .obj [("_id", .str "resources/foo")]),
      ("_rev", .num 4)]⟩ [] _ rfl

/-- C1: for every successfully classified batch with distinct matched
pointers, each matched `(value, pointer)` pair maps per the classifier
table: an absent value emits exactly one `ItemRemoved`; a value without
sidecar changes that is an object carrying an `_id` link emits exactly
one `ItemAdded`; when sidecar changes are present, one `ItemChanged` is
emitted per tagged change in order, with `rev = body._meta._rev ??
body._rev` and the change path re-rooted at the item. -/
theorem classifier_event_table :
    ∀ (sel : Selector) (root : Change) (children : List Change)
      (evs : List Event),
      processBatch sel root children = .ok evs →
      ((matchItems sel (buildChangeObject root children)).map Prod.snd).Nodup →
      ∀ vp ∈ matchItems sel (buildChangeObject root children),
        (vp.1 = .absent →
          filterKindAt .ItemRemoved vp.2 evs
            = [{ kind := .ItemRemoved, pointer := vp.2,
                 listRev := listRevOf root }]) ∧
        (vp.1.sidecarOf = [] → vp.1.hasIdKey = true →
          filterKindAt .ItemAdded vp.2 evs
            = [{ kind := .ItemAdded, pointer := vp.2,
                 listRev := listRevOf root }]) ∧
        (vp.1.sidecarOf ≠ [] →
          filterKindAt .ItemChanged vp.2 evs
            = vp.1.sidecarOf.map (mkChangedEvent (listRevOf root) vp.2)) := by
  intro sel root children evs h hnd vp hvp
  have h2 : classifyAll (listRevOf root)
      (matchItems sel (buildChangeObject root children)) = .ok evs := h
  obtain ⟨own, hc, hf⟩ := classifyAll_filter_decomp h2 hnd vp hvp
  obtain ⟨v, p⟩ := vp
  refine ⟨?_, ?_, ?_⟩
  · intro habs
    rw [hf .ItemRemoved]
    rw [show ((v, p) : CJson × String).1 = v from rfl] at habs
    subst habs
    have hc2 : (Except.ok
        [({ kind := .ItemRemoved, pointer := p, listRev := listRevOf root } : Event)]
          : Except String (List Event)) = .ok own := hc
    cases hc2
    simp [filterKindAt, List.filter]
  · intro hsc hid
    cases v with
    | obj cs fs =>
      have hcs : cs = [] := hsc
      subst hcs
      rw [classifyItem_obj, if_pos (by simp [hid])] at hc
      cases hc
      rw [hf .ItemAdded]
      simp [filterKindAt, emitEvents, List.filter]
    | absent => simp [CJson.hasIdKey] at hid
    | null => simp [CJson.hasIdKey] at hid
    | bool b => simp [CJson.hasIdKey] at hid
    | num n => simp [CJson.hasIdKey] at hid
    | str s2 => simp [CJson.hasIdKey] at hid
    | arr xs => simp [CJson.hasIdKey] at hid
  · intro hne
    cases v with
    | obj cs fs =>
      have hne2 : cs ≠ [] := hne
      rw [classifyItem_obj, if_neg (by
        simp only [Bool.and_eq_true]
        intro hcond
        exact hne2 (List.isEmpty_iff.mp hcond.1))] at hc
      cases hc
      rw [hf .ItemChanged]
      exact filterKindAt_changed_flatMap _ _ cs
    | absent => exact absurd rfl hne
    | null => exact absurd rfl hne
    | bool b => exact absurd rfl hne
    | num n => exact absurd rfl hne
    | str s2 => exact absurd rfl hne
    | arr xs => exact absurd rfl hne

/-- Witness for C1 at the scenario S2 batch: the delete-translated `/K`
pair is absent and yields exactly one `ItemRemoved`. -/
theorem classifier_event_table_witness :
    filterKindAt .ItemRemoved "/K"
        [{ kind := .ItemRemoved, pointer := "/K", listRev := some 4 }]
      = [{ kind := .ItemRemoved, pointer := "/K", listRev := some 4 }] :=
  (classifier_event_table .defaultItems
      ⟨.delete, "", .obj [("K", .null), ("_rev", .num 4)]⟩ []
      [{ kind := .ItemRemoved, pointer := "/K", listRev := some 4 }] rfl
      (by decide) (CJson.absent, "/K")
      (by
        rw [show matchItems Selector.defaultItems
            (buildChangeObject
              ⟨.delete, "", .obj [("K", .null), ("_rev", .num 4)]⟩ [])
            = [(CJson.absent, "/K")] from rfl]
        exact List.mem_singleton.mpr rfl)).1 rfl

/-- C10 (amended): for every successfully classified batch with distinct
matched pointers, a matched pair whose value is defined and non-null,
carries no sidecar changes and is not an object with an `_id` key emits
no event of any kind at its pointer; the pair is skipped.  (A `null`
value instead aborts the batch with a `TypeError`.) -/
theorem nonlink_values_emit_nothing :
    ∀ (sel : Selector) (root : Change) (children : List Change)
      (evs : List Event),
      processBatch sel root children = .ok evs →
      ((matchItems sel (buildChangeObject root children)).map Prod.snd).Nodup →
      ∀ vp ∈ matchItems sel (buildChangeObject root children),
        vp.1 ≠ .absent → vp.1 ≠ .null →
        vp.1.sidecarOf = [] → vp.1.hasIdKey = false →
        ∀ k, filterKindAt k vp.2 evs = [] := by
  intro sel root children evs h hnd vp hvp hna hnn hsc hid k
  have h2 : classifyAll (listRevOf root)
      (matchItems sel (buildChangeObject root children)) = .ok evs := h
  obtain ⟨own, hc, hf⟩ := classifyAll_filter_decomp h2 hnd vp hvp
  obtain ⟨v, p⟩ := vp
  rw [hf k]
  cases v with
  | absent => exact absurd rfl hna
  | null => exact absurd rfl hnn
  | bool b =>
    have hc2 : (Except.ok [] : Except String (List Event)) = .ok own := hc
    cases hc2
    rfl
  | num n =>
    have hc2 : (Except.ok [] : Except String (List Event)) = .ok own := hc
    cases hc2
    rfl
  | str s2 =>
    have hc2 : (Except.ok [] : Except String (List Event)) = .ok own := hc
    cases hc2
    rfl
  | arr xs =>
    have hc2 : (Except.ok [] : Except String (List Event)) = .ok own := hc
    cases hc2
    rfl
  | obj cs fs =>
    have hcs : cs = [] := hsc
    subst hcs
    rw [classifyItem_obj, if_neg (by simp [hid])] at hc
    cases hc
    rfl

/-- Counterexample for C10 as frozen: a matched `null` value is not
silently skipped; destructuring it throws, the whole batch aborts, and
even the later `_id` link in the same batch emits nothing. -/
theorem null_value_aborts_processing :
    processBatch .star
        ⟨.merge, "", .obj [("A", .null),
          ("B", .obj [("_id", .str "resources/b")]), ("_rev", .num 4)]⟩ []
      = .error "TypeError: cannot destructure null" := rfl

/-- Witness for the amended C10: a bare number child emits no event of
any kind, not even `ItemAny`, while a sibling link is added. -/
theorem nonlink_values_emit_nothing_witness :
    filterKindAt .ItemAny "/X"
        [{ kind := .ItemAdded, pointer := "/K", listRev := some 4 },
         { kind := .ItemAny, pointer := "/K", listRev := some 4 }] = [] :=
  nonlink_values_emit_nothing .star
    ⟨.merge, "", .obj [("X", .num 5),
      ("K", .obj [("_id", .str "resources/foo")]), ("_rev", .num 4)]⟩ []
    [{ kind := .ItemAdded, pointer := "/K", listRev := some 4 },
     { kind := .ItemAny, pointer := "/K", listRev := some 4 }] rfl
    (by decide) (CJson.num 5, "/X")
    (by
      rw [show matchItems Selector.star
          (buildChangeObject
            ⟨.merge, "", .obj [("X", .num 5),
              ("K", .obj [("_id", .str "resources/foo")]), ("_rev", .num 4)]⟩ [])
          = [(CJson.num 5, "/X"),
             (CJson.obj [] [("_id", CJson.str "resources/foo")], "/K"),
             (CJson.num 4, "/_rev")] from rfl]
      exact List.mem_cons_self _ _)
    (by simp) (by simp) rfl rfl .ItemAny

/-- C8 (amended): with the default items selector, no emitted event has a
pointer with a component beginning with an underscore, provided the
direct-child keys are slash free (as OADA keys are). -/
theorem default_selector_skips_underscore_keys :
    ∀ (root : Change) (children : List Change) (evs : List Event),
      processBatch .defaultItems root children = .ok evs →
      topKeysSlashFree (buildChangeObject root children) = true →
      ∀ e ∈ evs, ∀ comp ∈ parsePtr e.pointer, underscoreFirst comp = false := by
  intro root children evs h hsf e he comp hcomp
  have h2 : classifyAll (listRevOf root)
      (matchItems .defaultItems (buildChangeObject root children)) = .ok evs := h
  have hp := classifyAll_ok_pointers h2 e he
  obtain ⟨vp, hvp, hpe⟩ := List.mem_map.mp hp
  obtain ⟨k, cs, fs, ht, hkf, hk2, hkus⟩ := matchItems_default_shape hvp
  have hall : ∀ kv ∈ fs, (!(kv.1.toList.contains '/')) = true := by
    rw [ht] at hsf
    exact List.all_eq_true.mp hsf
  have hsl : '/' ∉ k.toList := by
    have hk3 := hall (k, vp.1) hkf
    simpa using hk3
  rw [← hpe, hk2, parsePtr_single k hsl] at hcomp
  rw [List.mem_singleton.mp hcomp]
  exact hkus

/-- Counterexample for C8 as frozen: with the configured selector `$.*`
nothing filters underscore keys, and a `_meta` link in the change body
emits an `ItemAdded` whose pointer component begins with an underscore. -/
theorem star_selector_emits_underscore_pointer :
    processBatch .star
        ⟨.merge, "", .obj [("_meta", .obj [("_id", .str "resources/x")]),
          ("_rev", .num 4)]⟩ []
      = .ok [{ kind := .ItemAdded, pointer := "/_meta", listRev := some 4 },
             { kind := .ItemAny, pointer := "/_meta", listRev := some 4 }] ∧
    parsePtr "/_meta" = ["_meta"] ∧ underscoreFirst "_meta" = true := by
  refine ⟨rfl, by decide, by decide⟩

/-- Witness for the amended C8: the default selector emits only the `/K`
events for the same body, and the component `K` does not begin with an
underscore. -/
theorem default_selector_skips_underscore_keys_witness :
    underscoreFirst "K" = false :=
  default_selector_skips_underscore_keys
    ⟨.merge, "", .obj [("_meta", .obj [("_id", .str "resources/x")]),
      ("K", .obj [("_id", .str "resources/k")]), ("_rev", .num 4)]⟩ []
    [{ kind := .ItemAdded, pointer := "/K", listRev := some 4 },
     { kind := .ItemAny, pointer := "/K", listRev := some 4 }] rfl (by decide)
    { kind := .ItemAdded, pointer := "/K", listRev := some 4 }
    (List.mem_cons_self _ _) "K" (by decide)

/-- C2 (code bug): a batch `[{type: delete, path: two-quotes, body: null}]`
breaks out of the change feed loop, so no further item events are emitted
even when later batches arrive; but the loop then falls through to
`throw new Error(...)`, so a `Change feed ended` error is surfaced on the
emitter instead of a clean stop.  The second conjunct shows the later
batch alone would have produced events. -/
theorem list_delete_terminates_with_feed_error :
    handleChangeFeed .star
        [(⟨.delete, "", .null⟩, []),
         (⟨.merge, "", .obj [("K", .obj [("_id", .str "resources/foo")]),
            ("_rev", .num 5)]⟩, [])]
      = { events := [], revSets := [],
          errorEvent := some "Change feed ended" } ∧
    (handleChangeFeed .star
        [(⟨.merge, "", .obj [("K", .obj [("_id", .str "resources/foo")]),
            ("_rev", .num 5)]⟩, [])]).events
      = [{ kind := .ItemAdded, pointer := "/K", listRev := some 5 },
         { kind := .ItemAny, pointer := "/K", listRev := some 5 }] :=
  ⟨rfl, rfl⟩

/-- C9: the change-tree builder seeds the output with the translated root
body tagged with the root change and folds the children in order; each
child step deep-merges the translated child body into the node at
`child.path` and appends the child to the sidecar list of that node;
in the deep merge a later assignment of a non-object value at a key
overrides whatever was there (arrays replacing whole), and `null` under a
delete translates to the absence sentinel and nothing else does. -/
theorem changeTree_builder_spec :
    (∀ (root : Change) (cs : List Change) (c : Change),
        buildChangeObject root (cs ++ [c])
          = applyChild (buildChangeObject root cs) c) ∧
    (∀ (root : Change) (cs0 : List Change) (fs : List (String × CJson)),
        translatedBody root = .obj cs0 fs →
        buildChangeObject root [] = .obj [root] fs) ∧
    (∀ b : Json, translateDelete b = .absent ↔ b = .null) ∧
    (∀ (t : CJson) (c : Change),
        parsePtr c.path ≠ [] →
        alongObjs t (parsePtr c.path) = true →
        getPtr (applyChild t c) (parsePtr c.path)
          = some ((objectAssignDeep
                ((getPtr t (parsePtr c.path)).getD (.obj [] []))
                (translatedBody c)).setSidecar
              (sidecarOfOpt (getPtr t (parsePtr c.path)) ++ [c]))) ∧
    (∀ (tf : List (String × CJson)) (k : String) (v : CJson),
        (match v with | .obj _ _ => False | _ => True) →
        lookupF k (assignField tf k v)
          = some (match v with
                  | .arr xs => .arr (strip.stripList xs)
                  | w => w)) := by
  refine ⟨?_, ?_, ?_, ?_, ?_⟩
  · intro root cs c
    simp [buildChangeObject, List.foldl_append]
  · intro root cs0 fs hte
    simp [buildChangeObject, hte]
  · intro b
    cases b <;> simp [translateDelete]
  · intro t c _ hal
    have hx := getPtr_setPtr (parsePtr c.path) t
      ((objectAssignDeep ((getPtr t (parsePtr c.path)).getD (.obj [] []))
          (translatedBody c)).setSidecar
        (sidecarOfOpt (getPtr t (parsePtr c.path)) ++ [c]))
      hal (setSidecar_ne_absent (objectAssignDeep_ne_absent _ _) _)
    exact hx
  · intro tf k v hv
    cases v with
    | obj cs fs => exact hv.elim
    | absent => simp [assignField, lookupF_setF_self]
    | null => simp [assignField, lookupF_setF_self]
    | bool b => simp [assignField, lookupF_setF_self]
    | num n => simp [assignField, lookupF_setF_self]
    | str s2 => simp [assignField, lookupF_setF_self]
    | arr xs => simp [assignField, lookupF_setF_self]

/-- Witness for C9: the seed of a root delete rewrites the null leaf to
the absence sentinel; a child merge at `/K` lands at that node with its
sidecar; a later scalar assignment overrides at the key. -/
theorem changeTree_builder_spec_witness :
    buildChangeObject ⟨.delete, "", .obj [("K", .null)]⟩ []
        = .obj [⟨.delete, "", .obj [("K", .null)]⟩] [("K", .absent)] ∧
    getPtr
        (applyChild (.obj [] [("K", .obj [] [("_rev", .num 1)])])
          ⟨.merge, "/K", .obj [("foo", .str "bar")]⟩)
        (parsePtr "/K")
      = some ((objectAssignDeep
            ((getPtr (.obj [] [("K", .obj [] [("_rev", .num 1)])])
                (parsePtr "/K")).getD (.obj [] []))
            (translatedBody ⟨.merge, "/K", .obj [("foo", .str "bar")]⟩)).setSidecar
          (sidecarOfOpt (getPtr (.obj [] [("K", .obj [] [("_rev", .num 1)])])
              (parsePtr "/K"))
            ++ [⟨.merge, "/K", .obj [("foo", .str "bar")]⟩])) ∧
    lookupF "x" (assignField [("x", .str "old")] "x" (.num 3)) = some (.num 3) :=
  ⟨changeTree_builder_spec.2.1 ⟨.delete, "", .obj [("K", .null)]⟩ []
      [("K", .absent)] rfl,
   changeTree_builder_spec.2.2.2.1
      (.obj [] [("K", .obj [] [("_rev", .num 1)])])
      ⟨.merge, "/K", .obj [("foo", .str "bar")]⟩ (by decide) (by decide),
   changeTree_builder_spec.2.2.2.2 [("x", .str "old")] "x" (.num 3) trivial⟩

/-- C4: dispatching one event to the registered callback listeners makes
every listener receive it; a listener that throws has its error caught
and forwarded as one `setErrored(pointer, listRev, error)` PUT that
deep-merges the inspected error under `errors`, and the cursor cell is
still assigned the listRev of the event; no listener failure prevents the
other listeners from receiving the event or the cursor assignment. -/
theorem listener_error_isolation :
    ∀ (evt : Event) (ls : List Listener) (m : Meta),
      ls ≠ [] →
      (dispatchEvent evt ls m).1
          = ls.map (fun l => { l with received := l.received ++ [evt] }) ∧
      (dispatchEvent evt ls m).2.rev = revValOfNumber evt.listRev ∧
      (dispatchEvent evt ls m).2.errorPuts
          = m.errorPuts ++ ls.flatMap (fun l =>
              (l.outcome.map fun err =>
                errorData evt.pointer evt.listRev err).toList) ∧
      (dispatchEvent evt ls m).2.revWrites = m.revWrites := by
  intro evt ls m hne
  obtain ⟨h1, h2, h3, h4⟩ := dispatchEvent_parts evt ls m
  exact ⟨h1, h4 hne, h2, h3⟩

/-- Witness for C4: two listeners, the first throwing; both receive the
event, exactly the thrown error is recorded, and the cursor cell holds
the listRev of the event. -/
theorem listener_error_isolation_witness :
    (dispatchEvent { kind := .ItemAdded, pointer := "/K", listRev := some 7 }
        [{ outcome := some "boom" }, { outcome := none }] {}).2.rev
      = RevVal.json (.num 7) ∧
    (dispatchEvent { kind := .ItemAdded, pointer := "/K", listRev := some 7 }
        [{ outcome := some "boom" }, { outcome := none }] {}).2.errorPuts
      = [errorData "/K" (some 7) "boom"] ∧
    (dispatchEvent { kind := .ItemAdded, pointer := "/K", listRev := some 7 }
        [{ outcome := some "boom" }, { outcome := none }] {}).1
      = [{ outcome := some "boom",
           received := [{ kind := .ItemAdded, pointer := "/K", listRev := some 7 }] },
         { outcome := none,
           received := [{ kind := .ItemAdded, pointer := "/K", listRev := some 7 }] }] :=
  ⟨(listener_error_isolation _ _ {} (List.cons_ne_nil _ _)).2.1,
   (listener_error_isolation _ _ {} (List.cons_ne_nil _ _)).2.2.1,
   (listener_error_isolation _ _ {} (List.cons_ne_nil _ _)).1⟩

/-- C5: over any interleaving of rev-cell assignments and debounced
writer ticks in which the assigned revision numbers are non-decreasing,
the sequence of successfully persisted cursor values is non-decreasing:
every write records a value at least as large as every previously
recorded value. -/
theorem persisted_rev_monotonic :
    ∀ (r0 : RevVal) (ops : List MetaOp) (ns : List Int),
      setRevArgs ops = ns.map (fun n => RevVal.json (.num n)) →
      ns.Pairwise (· ≤ ·) →
      ∃ ms : List Int,
        (metaRun { rev := r0, initialized := true } ops).revWrites
          = ms.map (fun n => RevVal.json (.num n)) ∧
        ms.Pairwise (· ≤ ·) := by
  intro r0 ops ns h1 h2
  refine metaRun_writes_aux ops ns _ [] h1 h2 rfl List.Pairwise.nil ?_ ?_
  · intro w hw
    cases hw
  · intro hd
    simp at hd

/-- Witness for C5: two assignments at revs 4 and 9 with a persist tick
after each produce the non-decreasing write sequence [4, 9]. -/
theorem persisted_rev_monotonic_witness :
    ∃ ms : List Int,
      (metaRun { rev := .undefinedV, initialized := true }
          [.setRev (.json (.num 4)), .persist true,
           .setRev (.json (.num 9)), .persist true]).revWrites
        = ms.map (fun n => RevVal.json (.num n)) ∧
      ms.Pairwise (· ≤ ·) :=
  persisted_rev_monotonic .undefinedV _ [4, 9] rfl (by decide)

/-- C6: with resume enabled and prior metadata containing `rev: R`,
initialization reads and caches R and opens the change feed with
`conn.watch` at rev R. -/
theorem resume_opens_watch_at_stored_rev :
    ∀ (path name : String) (assume : AssumeState) (env : InitEnv)
      (fs : List (String × Json)) (R : Int),
      env.metaDoc = some (.obj fs) →
      lookupJF "rev" fs = some (.num R) →
      (initFlow path name true assume env).foundMeta = some true ∧
      (initFlow path name true assume env).metaRev = .json (.num R) ∧
      (initFlow path name true assume env).watchRev = .json (.num R) := by
  intro path name assume env fs R h1 h2
  refine ⟨?_, ?_, ?_⟩ <;>
    simp [initFlow, metaInit, h1, h2, jsNumber, revValOfNumber]

/-- Witness for C6 at the scenario S4 metadata `rev: 766`. -/
theorem resume_opens_watch_at_stored_rev_witness :
    (initFlow "/bookmarks" "svc" true .New
        { metaDoc := some (.obj [("rev", .num 766)]),
          postLocation := "/resources/xyz", putRevHeader := none }).watchRev
      = RevVal.json (.num 766) :=
  (resume_opens_watch_at_stored_rev "/bookmarks" "svc" .New
      { metaDoc := some (.obj [("rev", .num 766)]),
        postLocation := "/resources/xyz", putRevHeader := none }
      [("rev", .num 766)] 766 rfl rfl).2.2

/-- C7 (amended): with resume enabled and no prior metadata, init POSTs
an empty resource, PUTs its `_id` under the metadata path and returns
not-present; the recorded rev is initialized from the x-oada-rev header
of the initial PUT regardless of `onNewList` (unset when the header is
absent), never to 0. -/
theorem fresh_metadata_init :
    ∀ (path name : String) (assume : AssumeState) (env : InitEnv),
      env.metaDoc = none →
      (metaInit (metaPath path name) env).found = false ∧
      (metaInit (metaPath path name) env).actions = [
          .post "/resources/" (.obj []),
          .put (metaPath path name)
            (.obj [("_id", .str (env.postLocation.drop 1))]),
          .put (metaPath path name)
            (revPutData (metaInit (metaPath path name) env).rev)] ∧
      (metaInit (metaPath path name) env).rev
          = (match env.putRevHeader with
             | some h => if h = "" then RevVal.undefinedV
                         else revValOfNumber (jsNumber (.str h))
             | none => RevVal.undefinedV) ∧
      (initFlow path name true assume env).metaRev
          = (metaInit (metaPath path name) env).rev ∧
      (initFlow path name true assume env).foundMeta = some false := by
  intro path name assume env h
  refine ⟨?_, ?_, ?_, ?_, ?_⟩ <;> simp [initFlow, metaInit, h]

/-- Counterexample for C7 as frozen: with `onNewList = New` and the
initial PUT answering `x-oada-rev: 7`, the recorded rev is 7, not 0. -/
theorem fresh_metadata_rev_not_zero :
    (initFlow "/bookmarks" "svc" true AssumeState.New
        { metaDoc := none, postLocation := "/resources/abc",
          putRevHeader := some "7" }).metaRev = RevVal.json (.num 7) ∧
    ¬ (initFlow "/bookmarks" "svc" true AssumeState.New
        { metaDoc := none, postLocation := "/resources/abc",
          putRevHeader := some "7" }).metaRev = RevVal.json (.num 0) := by
  refine ⟨rfl, fun h => ?_⟩
  have h2 : RevVal.json (.num 7) = RevVal.json (.num 0) := h
  injection h2 with h3
  injection h3 with h4
  omega

/-- Witness for the amended C7 at a concrete environment with header 7:
not-present is returned and the rev cell holds `Number("7")` although the
assumption is `New`. -/
theorem fresh_metadata_init_witness :
    (metaInit (metaPath "/bookmarks" "svc")
        { metaDoc := none, postLocation := "/resources/abc",
          putRevHeader := some "7" }).found = false ∧
    (initFlow "/bookmarks" "svc" true AssumeState.New
        { metaDoc := none, postLocation := "/resources/abc",
          putRevHeader := some "7" }).metaRev
      = (metaInit (metaPath "/bookmarks" "svc")
          { metaDoc := none, postLocation := "/resources/abc",
            putRevHeader := some "7" }).rev :=
  ⟨(fresh_metadata_init "/bookmarks" "svc" AssumeState.New
      { metaDoc := none, postLocation := "/resources/abc",
        putRevHeader := some "7" } rfl).1,
   (fresh_metadata_init "/bookmarks" "svc" AssumeState.New
      { metaDoc := none, postLocation := "/resources/abc",
        putRevHeader := some "7" } rfl).2.2.2.1⟩

end ListLib
